import Mathlib

/-!
Verification of the ZenReader style-snapshot-and-reconstruction engine.

Shallow embedding of the TypeScript core (the `src/content` tree built by
vite: `styleCache.ts` / `elementCloner` section, `shadowDomStyles.ts`,
`layoutFixer` (pseudo-content materializer), `domUtils.ts`, `focusMode.ts`).

Conventions used throughout:
* A computed style (`CSSStyleDeclaration` read view) is modelled as a total
  function `String → String` indexed by the camel-cased JS property name; the
  empty string models an unset / falsy property value.
* An element's inline style (`element.style`) is an ordered declaration list
  `List (String × String × Bool)` of (css-property-name, value, important).
  `setProperty` replaces an existing declaration in place (CSSOM behaviour)
  and removes the declaration when given an empty value.
* JS `String.prototype.includes` is substring containment, `||` on strings is
  falsy-chaining on the empty string.
-/

/-- Substring containment, modelling JS `hay.includes(needle)` /
`hay.indexOf(needle) !== -1`. -/
def containsStr (hay needle : String) : Bool :=
  decide (needle.toList <:+: hay.toList)

/-- JS falsy-default on strings: `v || dflt`. -/
def jsOr (v dflt : String) : String :=
  if v = "" then dflt else v

/-- Prefix test on character lists (first argument is the pattern). -/
def listStartsWith : List Char → List Char → Bool
  | [], _ => true
  | _ :: _, [] => false
  | a :: as, b :: bs => a == b && listStartsWith as bs

/-- JS regex `\s` / `trim()` whitespace class (the members that can occur in
the strings this model handles). -/
def isJsWhitespace (c : Char) : Bool :=
  c == ' ' || c == '\t' || c == '\n' || c == '\r' ||
  c == Char.ofNat 11 || c == Char.ofNat 12 || c == Char.ofNat 160 ||
  c == Char.ofNat 65279

/-- JS `String.prototype.trim` (strip leading/trailing whitespace). -/
def jsTrim (s : String) : String :=
  String.mk (((s.toList.dropWhile isJsWhitespace).reverse.dropWhile
    isJsWhitespace).reverse)

/-- JS `String.prototype.toLowerCase` (per-character case mapping). -/
def jsToLower (s : String) : String :=
  String.mk (s.toList.map Char.toLower)

/-- JS `String.prototype.toUpperCase` (per-character case mapping). -/
def jsToUpper (s : String) : String :=
  String.mk (s.toList.map Char.toUpper)

/-- JS `String.prototype.startsWith`. -/
def jsStartsWith (s p : String) : Bool :=
  listStartsWith p.toList s.toList

/-- A computed-style read view: camel-cased property name ↦ value ("" = unset). -/
def CStyle := String → String

/-- Parent description used by `isPossibleTagElement` (`element.parentElement`). -/
structure ParentInfo where
  className : String
  id : String
  childElementCount : Nat
deriving Repr, DecidableEq

/-- The fields of a live source element that the classifier and the cloner
read (`className` is the resolved string form, covering the SVG
`className.baseVal` fallback in the source). `paragraphCount` and
`headingCount` model `querySelectorAll('p').length` and
`querySelectorAll('h1, h2, h3, h4, h5, h6').length`. -/
structure SrcElem where
  tagName : String
  className : String
  id : String
  innerText : String
  childElementCount : Nat
  paragraphCount : Nat
  headingCount : Nat
  offsetWidth : Nat
  parent : Option ParentInfo
deriving Repr, DecidableEq

/-- Fixed vocabulary of tag-ish identifiers from `isPossibleTagElement`. -/
def commonTagIdentifiers : List String :=
  ["tag", "label", "badge", "pill", "chip", "hashtag", "category"]

/-- Embedding of `isPossibleTagElement` (styleCache.ts / elementCloner
section, lines 58–111 of the TS file). `style` is the resolved computed style
of the element (cache hit or live query — both yield a read view). -/
def isPossibleTagElement (e : SrcElem) (style : CStyle) : Bool :=
  let className := jsToLower e.className
  let id := jsToLower e.id
  let innerText := e.innerText
  let hasTagClass := commonTagIdentifiers.any (fun ident => containsStr className ident)
  let hasTagId := commonTagIdentifiers.any (fun ident => containsStr id ident)
  let isShortText := innerText.length < 30
  let hasSimpleStructure := e.childElementCount ≤ 1
  let hasBorderRadius := style "borderRadius" != "" && style "borderRadius" != "0px"
  let hasInlineDisplay := style "display" == "inline" ||
    style "display" == "inline-block" ||
    style "display" == "inline-flex"
  let hasBackground := style "backgroundColor" != "" &&
    style "backgroundColor" != "transparent" &&
    style "backgroundColor" != "rgba(0, 0, 0, 0)"
  let hasBorder := style "border" != "" && style "border" != "none" &&
    style "border" != "0px"
  let isHashtag := jsStartsWith (jsTrim e.innerText) "#"
  let hasTagContainer :=
    match e.parent with
    | some p =>
        let parentClass := jsToLower p.className
        let parentId := jsToLower p.id
        commonTagIdentifiers.any
          (fun ident => containsStr parentClass ident || containsStr parentId ident)
    | none => false
  hasTagClass || hasTagId || isHashtag || hasTagContainer ||
    (isShortText && hasSimpleStructure &&
      (hasInlineDisplay || hasBorderRadius || hasBackground || hasBorder))

/-- The tag-likeness predicate as worded by the specification (§4.2), for the
refinement comparison of claim C2: (a) class or id contains one of the
vocabulary identifiers; (b) the trimmed text starts with '#'; (c) the parent's
class or id contains one of the identifiers; (d) the weak bundle: text shorter
than 30 characters AND at most one child element AND at least one visual
signal (inline-ish display / non-zero border radius / non-transparent
background colour / non-none border). At the string granularity of computed
values, "" and "0px" denote an absent radius or border, and "" , "transparent"
and "rgba(0, 0, 0, 0)" denote a transparent background. -/
def TagLikeSpec (e : SrcElem) (style : CStyle) : Prop :=
  ((∃ ident ∈ commonTagIdentifiers, containsStr (jsToLower e.className) ident = true) ∨
   (∃ ident ∈ commonTagIdentifiers, containsStr (jsToLower e.id) ident = true)) ∨
  jsStartsWith (jsTrim e.innerText) "#" = true ∨
  (∃ p, e.parent = some p ∧ ∃ ident ∈ commonTagIdentifiers,
      (containsStr (jsToLower p.className) ident = true ∨
       containsStr (jsToLower p.id) ident = true)) ∨
  (e.innerText.length < 30 ∧ e.childElementCount ≤ 1 ∧
    (style "display" = "inline" ∨ style "display" = "inline-block" ∨
     style "display" = "inline-flex" ∨
     (style "borderRadius" ≠ "" ∧ style "borderRadius" ≠ "0px") ∨
     (style "backgroundColor" ≠ "" ∧ style "backgroundColor" ≠ "transparent" ∧
      style "backgroundColor" ≠ "rgba(0, 0, 0, 0)") ∨
     (style "border" ≠ "" ∧ style "border" ≠ "none" ∧ style "border" ≠ "0px")))

set_option maxHeartbeats 1000000 in
/-- C2: the tag-likeness classifier returns true if and only if one of the
four spec conditions (a)–(d) holds; in particular it returns false for every
element satisfying none of (a)–(c) and failing any conjunct of (d). -/
theorem isPossibleTagElement_iff_spec (e : SrcElem) (style : CStyle) :
    isPossibleTagElement e style = true ↔ TagLikeSpec e style := by
  unfold isPossibleTagElement TagLikeSpec
  cases hp : e.parent with
  | none =>
      simp only [hp, List.any_eq_true, Bool.or_eq_true, Bool.and_eq_true,
        beq_iff_eq, bne_iff_ne, ne_eq, decide_eq_true_eq, Option.some.injEq,
        reduceCtorEq, false_and, exists_false, false_or]
      itauto
  | some p =>
      simp only [hp, List.any_eq_true, Bool.or_eq_true, Bool.and_eq_true,
        beq_iff_eq, bne_iff_ne, ne_eq, decide_eq_true_eq, Option.some.injEq,
        exists_eq_left']
      itauto

/-! ### Traversal budget (focusMode.ts `enterFocusMode`, domUtils.ts `estimateTreeSize`) -/

/-- Bare element tree (node identity as a numeric id, element children). -/
inductive PTree where
  | node (id : Nat) (children : List PTree)
deriving Repr

def PTree.rootId : PTree → Nat
  | .node i _ => i

def PTree.children : PTree → List PTree
  | .node _ cs => cs

mutual
/-- Number of element nodes in a tree (root included). -/
def treeSize : PTree → Nat
  | .node _ cs => 1 + forestSize cs

def forestSize : List PTree → Nat
  | [] => 0
  | t :: ts => treeSize t + forestSize ts
end

/-- Embedding of `estimateTreeSize(element, cap)` (domUtils.ts): a TreeWalker
`nextNode()` loop counts the element descendants of `element` (the root itself
is not counted, since `nextNode` starts past it) and returns `cap` as soon as
the count reaches it — i.e. the descendant count clamped at `cap`. -/
def estimateTreeSize (t : PTree) (cap : Nat) : Nat :=
  min (treeSize t - 1) cap

/-- Embedding of the budget choice in `enterFocusMode` (focusMode.ts lines
156–163): `treeSize < 100 → 50`, `treeSize ≤ 1000 → 20`, otherwise `10`. -/
def chooseMaxDepth (treeSize : Nat) : Nat :=
  if treeSize < 100 then 50
  else if treeSize ≤ 1000 then 20
  else 10

/-- C9: the traversal budget is antitone across the thresholds: a subtree
whose estimate is below 100 gets a depth ceiling at least as large as one
whose estimate is above 1000. -/
theorem chooseMaxDepth_antitone (t1 t2 : PTree)
    (h1 : estimateTreeSize t1 2000 < 100) (h2 : estimateTreeSize t2 2000 > 1000) :
    chooseMaxDepth (estimateTreeSize t2 2000) ≤ chooseMaxDepth (estimateTreeSize t1 2000) := by
  unfold chooseMaxDepth
  split_ifs <;> omega

/-- Wide tree with `n` leaf children, used to instantiate size bounds. -/
def fanTree (n : Nat) : PTree :=
  .node 0 ((List.range n).map (fun i => .node (i + 1) []))

theorem forestSize_leaves (l : List Nat) :
    forestSize (l.map (fun i => .node (i + 1) [])) = l.length := by
  induction l with
  | nil => rfl
  | cons a l ih =>
      simp [forestSize, treeSize, ih]
      omega

theorem treeSize_fanTree (n : Nat) : treeSize (fanTree n) = n + 1 := by
  simp [fanTree, treeSize, forestSize_leaves]
  omega

/-- Witness for C9 at concrete subtrees: a single-node tree (estimate 0) and a
1500-child tree (estimate 1500). -/
theorem chooseMaxDepth_antitone_witness :
    estimateTreeSize (.node 0 []) 2000 < 100 ∧
    estimateTreeSize (fanTree 1500) 2000 > 1000 ∧
    chooseMaxDepth (estimateTreeSize (fanTree 1500) 2000) ≤
      chooseMaxDepth (estimateTreeSize (.node 0 []) 2000) := by
  have h1 : estimateTreeSize (.node 0 []) 2000 < 100 := by decide
  have h2 : estimateTreeSize (fanTree 1500) 2000 > 1000 := by
    unfold estimateTreeSize
    rw [treeSize_fanTree]
    decide
  exact ⟨h1, h2, chooseMaxDepth_antitone (.node 0 []) (fanTree 1500) h1 h2⟩

/-! ### Cross-origin sheet fetch fan-in (shadowDomStyles.ts `fetchCrossOriginSheets`) -/

/-- Outcome of one privileged `fetchCSS` round trip, as seen by the callback
of `fetchSingleCrossOriginSheet`: `hasError` models `chrome.runtime.lastError`
(and the synchronous-throw path), otherwise the proxy response carries a
`success` flag and a css text. -/
structure CSSResponse where
  hasError : Bool
  success : Bool
  cssText : String
deriving Repr, DecidableEq

/-- What `fetchSingleCrossOriginSheet` hands to its `done` continuation: the
css text on a truthy success (`response.success && response.cssText`), `null`
(= `none`) on every error / failure / timeout path. -/
def doneValue (r : CSSResponse) : Option String :=
  if r.hasError then none
  else if r.success && r.cssText != "" then some r.cssText
  else none

/-- Mutable state closed over by `fetchCrossOriginSheets`: the remaining
counter, the accumulated `fetchedCSSTexts`, and the list of arguments the
completion callback has been invoked with so far. -/
structure CrossOriginState where
  remaining : Nat
  fetchedCSSTexts : List String
  callbackCalls : List (List String)
deriving Repr, DecidableEq

/-- Used when a settlement index is out of range (never happens for a
permutation of the url indices). -/
def failedResponse : CSSResponse := ⟨true, false, ""⟩

/-- Total lookup of the settlement outcome assigned to url index `i`. -/
def responseAt (responses : List CSSResponse) (i : Nat) : CSSResponse :=
  responses.getD i failedResponse

/-- One settlement of the fetch for url index `i` (the body of the `done`
continuation in `fetchCrossOriginSheets`): push the text if truthy, decrement
`remaining`, and invoke the completion callback when it reaches zero. -/
def settleFetch (responses : List CSSResponse) (st : CrossOriginState) (i : Nat) :
    CrossOriginState :=
  let v := doneValue (responseAt responses i)
  let fetched :=
    match v with
    | some t => if t != "" then st.fetchedCSSTexts ++ [t] else st.fetchedCSSTexts
    | none => st.fetchedCSSTexts
  let remaining := st.remaining - 1
  let calls :=
    if remaining = 0 then st.callbackCalls ++ [fetched] else st.callbackCalls
  ⟨remaining, fetched, calls⟩

/-- Embedding of `fetchCrossOriginSheets(shadow, urls, callback)`: `responses`
assigns each url index its settlement outcome, `order` is the order in which
the `sendMessage` callbacks fire. With no urls the callback fires
synchronously with `[]`; otherwise `remaining` starts at the url count and
each settlement runs `settleFetch`. -/
def fetchCrossOriginSheets (responses : List CSSResponse) (order : List Nat) :
    CrossOriginState :=
  if responses.length = 0 then ⟨0, [], [[]]⟩
  else order.foldl (settleFetch responses) ⟨responses.length, [], []⟩

theorem doneValue_ne_empty (r : CSSResponse) (t : String)
    (h : doneValue r = some t) : t ≠ "" := by
  unfold doneValue at h
  split at h
  · exact absurd h (by simp)
  · split at h
    · rename_i hc
      simp only [Option.some.injEq] at h
      subst h
      simp only [Bool.and_eq_true, bne_iff_ne] at hc
      exact hc.2
    · exact absurd h (by simp)

theorem settleFetch_eq (responses : List CSSResponse) (st : CrossOriginState)
    (i : Nat) :
    settleFetch responses st i =
      ⟨st.remaining - 1,
       st.fetchedCSSTexts ++ (doneValue (responseAt responses i)).toList,
       if st.remaining - 1 = 0 then
         st.callbackCalls ++
           [st.fetchedCSSTexts ++ (doneValue (responseAt responses i)).toList]
       else st.callbackCalls⟩ := by
  unfold settleFetch
  cases h : doneValue (responseAt responses i) with
  | none => simp [h]
  | some t =>
      have ht : t ≠ "" := doneValue_ne_empty _ _ h
      simp [h, ht]

theorem fetch_foldl_spec (responses : List CSSResponse) (order : List Nat)
    (st : CrossOriginState) (hrem : st.remaining = order.length)
    (hne : order ≠ []) :
    order.foldl (settleFetch responses) st =
      ⟨0,
       st.fetchedCSSTexts ++
         order.filterMap (fun i => doneValue (responseAt responses i)),
       st.callbackCalls ++
         [st.fetchedCSSTexts ++
           order.filterMap (fun i => doneValue (responseAt responses i))]⟩ := by
  induction order generalizing st with
  | nil => exact absurd rfl hne
  | cons i rest ih =>
      rcases rest with _ | ⟨j, rest'⟩
      · have h0 : st.remaining - 1 = 0 := by
          simp only [List.length_cons, List.length_nil] at hrem
          omega
        simp only [List.foldl, settleFetch_eq, h0, if_pos]
        simp [List.filterMap_cons]
        cases doneValue (responseAt responses i) <;> simp
      · have hlen : st.remaining = (j :: rest').length + 1 := by
          simpa using hrem
        have hpos : ¬ (st.remaining - 1 = 0) := by simp [hlen]
        rw [List.foldl_cons]
        rw [ih (settleFetch responses st i)
              (by rw [settleFetch_eq]; simp [hlen]) (by simp)]
        rw [settleFetch_eq]
        simp only [hpos, if_neg, List.filterMap_cons]
        cases doneValue (responseAt responses i) <;> simp

/-- C3: for every outcome assignment to the cross-scope urls and every
settlement order (a permutation of the url indices), the completion callback
is invoked exactly once, with exactly the successfully fetched texts (in
settlement order); with no urls it is invoked synchronously with `[]`. -/
theorem fetchCrossOriginSheets_callback_once (responses : List CSSResponse)
    (order : List Nat) (h : order.Perm (List.range responses.length)) :
    (fetchCrossOriginSheets responses order).callbackCalls =
      [order.filterMap (fun i => doneValue (responseAt responses i))] := by
  unfold fetchCrossOriginSheets
  by_cases h0 : responses.length = 0
  · have horder : order = [] := by
      have hl := h.length_eq
      rw [h0] at hl
      simpa using hl
    subst horder
    simp [h0]
  · have hlen : order.length = responses.length := by simpa using h.length_eq
    have hne : order ≠ [] := by
      intro hh
      rw [hh] at hlen
      simp at hlen
      omega
    rw [if_neg h0,
      fetch_foldl_spec responses order ⟨responses.length, [], []⟩ hlen.symm hne]
    simp

/-- Witness for C3: two urls, the first settling second with a success "a",
the second settling first with an error (timeout); the callback fires exactly
once with the one-element list `["a"]`. -/
theorem fetchCrossOriginSheets_callback_once_witness :
    ([1, 0].Perm
        (List.range ([⟨false, true, "a"⟩, ⟨true, false, ""⟩] : List CSSResponse).length)) ∧
    (fetchCrossOriginSheets [⟨false, true, "a"⟩, ⟨true, false, ""⟩] [1, 0]).callbackCalls =
      [["a"]] := by
  refine ⟨by decide, ?_⟩
  rw [fetchCrossOriginSheets_callback_once _ _ (by decide)]
  rfl

/-! ### Font-face injection and dedup (shadowDomStyles.ts `injectFontFaces`) -/

/-- State touched by `injectFontFaces`: the single
`style[data-zenreader-fonts]` marker block in the host document head (`none` =
not created yet) and the font style blocks appended to the isolation scope. -/
structure FontFaceState where
  hostMarker : Option String
  shadowFontBlocks : List String
deriving Repr, DecidableEq

/-- Newline join, modelling JS `array.join('\n')`. -/
def joinNewline : List String → String
  | [] => ""
  | [r] => r
  | r :: rest => r ++ "\n" ++ joinNewline rest

/-- Embedding of `injectFontFaces(shadow, fontFaceRules)`: drop the rules
already contained (substring check, `indexOf !== -1`) in the host marker
block's text, join the survivors with newlines, append the joined text as one
new block in the isolation scope and append it to the host marker block
(creating it on first use). -/
def injectFontFaces (st : FontFaceState) (fontFaceRules : List String) :
    FontFaceState :=
  if fontFaceRules.isEmpty then st
  else
    let existingContent := st.hostMarker.getD ""
    let dedupedRules := fontFaceRules.filter (fun r => !containsStr existingContent r)
    if dedupedRules.isEmpty then st
    else
      let combined := joinNewline dedupedRules
      { hostMarker :=
          some (match st.hostMarker with
                | some c => c ++ "\n" ++ combined
                | none => combined),
        shadowFontBlocks := st.shadowFontBlocks ++ [combined] }

def countOccurAux (needle : List Char) : List Char → Nat
  | [] => 0
  | c :: rest =>
      (if listStartsWith needle (c :: rest) then 1 else 0) + countOccurAux needle rest

/-- Number of (possibly overlapping) occurrences of `needle` in `hay`. -/
def countOccur (hay needle : String) : Nat :=
  countOccurAux needle.toList hay.toList

/-- Counterexample to C6 as stated: the same rule text passed twice in ONE
call of the font-face injection is appended twice to the host marker block
(the dedup compares against the marker block only, never against the other
list entries), so the marker holds two copies. -/
theorem injectFontFaces_single_call_duplicate :
    ((injectFontFaces ⟨none, []⟩ ["@font-face fontA", "@font-face fontA"]).hostMarker.getD "")
      = "@font-face fontA\n@font-face fontA" ∧
    countOccur
      ((injectFontFaces ⟨none, []⟩ ["@font-face fontA", "@font-face fontA"]).hostMarker.getD "")
      "@font-face fontA" = 2 := by
  constructor
  · rfl
  · rfl

theorem containsStr_append_right (a b : String) : containsStr (a ++ b) b = true := by
  unfold containsStr
  refine decide_eq_true ?_
  have h : (a ++ b).toList = a.toList ++ b.toList := by
    simp [String.toList, String.data_append]
  rw [h]
  exact (List.suffix_append a.toList b.toList).isInfix

theorem containsStr_refl (a : String) : containsStr a a = true := by
  unfold containsStr
  exact decide_eq_true (List.infix_refl a.toList)

theorem joinNewline_single (r : String) : joinNewline [r] = r := rfl

/-- After injecting `[r]`, the host marker block contains `r`. -/
theorem injectFontFaces_marker_contains (st : FontFaceState) (r : String) :
    containsStr ((injectFontFaces st [r]).hostMarker.getD "") r = true := by
  cases hm : st.hostMarker with
  | none =>
      by_cases hc : containsStr "" r = true
      · simp [injectFontFaces, hm, hc]
      · simp only [Bool.not_eq_true] at hc
        simp [injectFontFaces, hm, hc, joinNewline_single]
        exact containsStr_refl r
  | some c =>
      by_cases hc : containsStr c r = true
      · simp [injectFontFaces, hm, hc]
      · simp only [Bool.not_eq_true] at hc
        simp [injectFontFaces, hm, hc, joinNewline_single]
        exact containsStr_append_right (c ++ "\n") r

/-- If the host marker block already contains `r`, injecting `[r]` is a
no-op. -/
theorem injectFontFaces_noop_of_contains (st : FontFaceState) (r : String)
    (h : containsStr (st.hostMarker.getD "") r = true) :
    injectFontFaces st [r] = st := by
  simp [injectFontFaces, h]

/-- C6 (amended): across separate calls the dedup does hold — injecting the
same single rule text a second time is a no-op, so two calls never produce a
second copy in the host marker block. -/
theorem injectFontFaces_idempotent (st : FontFaceState) (r : String) :
    injectFontFaces (injectFontFaces st [r]) [r] = injectFontFaces st [r] :=
  injectFontFaces_noop_of_contains _ _ (injectFontFaces_marker_contains st r)

/-! ### Custom-property block replacement (shadowDomStyles.ts
`injectCSSCustomProperties`) -/

/-- A style block that is a child of the isolation scope; `isCustomProps`
models carrying the `data-zenreader-custom-props` attribute. -/
structure ShadowBlock where
  isCustomProps : Bool
  content : String
deriving Repr, DecidableEq

/-- Removal of the first block matching
`querySelector('style[data-zenreader-custom-props]')` (tree order = child
order), a no-op when none matches. -/
def removeFirstCustomPropsBlock : List ShadowBlock → List ShadowBlock
  | [] => []
  | b :: bs => if b.isCustomProps then bs else b :: removeFirstCustomPropsBlock bs

/-- Rendered text of the custom-property block: the `:host` and
`.shadow-container` rule blocks over the collected property lines. -/
def renderCustomProps (properties : List (String × String)) : String :=
  let cssLines := properties.map (fun p => "  " ++ p.1 ++ ": " ++ p.2 ++ ";")
  ":host \x7b\n" ++ joinNewline cssLines ++ "\n\x7d\n" ++
    ".shadow-container \x7b\n" ++ joinNewline cssLines ++ "\n\x7d"

/-- Embedding of `injectCSSCustomProperties(shadow, properties)`: remove the
previously injected block (if any), then — unless the property map is empty —
insert the freshly rendered block, before the second child when the scope
already has at least two children, else appended. -/
def injectCSSCustomProperties (shadow : List ShadowBlock)
    (properties : List (String × String)) : List ShadowBlock :=
  let s := removeFirstCustomPropsBlock shadow
  if properties.isEmpty then s
  else
    let newBlock : ShadowBlock := ⟨true, renderCustomProps properties⟩
    match s with
    | b1 :: b2 :: rest => b1 :: newBlock :: b2 :: rest
    | _ => s ++ [newBlock]

/-- Number of custom-property blocks in the isolation scope. -/
def countCustomProps (shadow : List ShadowBlock) : Nat :=
  shadow.countP (fun b => b.isCustomProps)

theorem countCustomProps_removeFirst (shadow : List ShadowBlock) :
    countCustomProps (removeFirstCustomPropsBlock shadow) =
      countCustomProps shadow - 1 := by
  induction shadow with
  | nil => rfl
  | cons b bs ih =>
      by_cases hb : b.isCustomProps = true
      · simp [removeFirstCustomPropsBlock, countCustomProps, hb, List.countP_cons]
      · simp only [Bool.not_eq_true] at hb
        simp only [removeFirstCustomPropsBlock, hb, Bool.false_eq_true, if_false]
        simp only [countCustomProps, List.countP_cons, hb] at *
        simp [ih]

theorem countCustomProps_inject (shadow : List ShadowBlock)
    (properties : List (String × String)) (h : countCustomProps shadow ≤ 1) :
    countCustomProps (injectCSSCustomProperties shadow properties) ≤ 1 := by
  have h0 : countCustomProps (removeFirstCustomPropsBlock shadow) = 0 := by
    rw [countCustomProps_removeFirst]
    omega
  simp only [injectCSSCustomProperties]
  split
  · omega
  · split
    · rename_i b1 b2 rest heq
      rw [heq] at h0
      simp only [countCustomProps, List.countP_cons] at h0 ⊢
      split_ifs at h0 ⊢ <;> omega
    · rename_i hne
      simp only [countCustomProps, List.countP_append, List.countP_cons,
        List.countP_nil] at h0 ⊢
      split_ifs at h0 ⊢ <;> omega

/-- C8: starting from a scope holding at most one custom-property block (a
fresh scope holds none), any sequence of custom-property injections leaves at
most one such block in the scope at every point, since each rebuild removes
the previous block before inserting the new one. -/
theorem customProps_at_most_one (seq : List (List (String × String)))
    (shadow : List ShadowBlock) (h : countCustomProps shadow ≤ 1) :
    countCustomProps (seq.foldl injectCSSCustomProperties shadow) ≤ 1 := by
  induction seq generalizing shadow with
  | nil => exact h
  | cons props rest ih =>
      rw [List.foldl_cons]
      exact ih _ (countCustomProps_inject shadow props h)

/-- Witness for C8: a fresh scope, one base block, then two successive
custom-property injections; exactly one custom-property block remains. -/
theorem customProps_at_most_one_witness :
    countCustomProps [⟨false, "base"⟩] ≤ 1 ∧
    countCustomProps
      ([[("--a", "1")], [("--b", "2")]].foldl injectCSSCustomProperties
        [⟨false, "base"⟩]) ≤ 1 :=
  ⟨by decide, customProps_at_most_one [[("--a", "1")], [("--b", "2")]] [⟨false, "base"⟩] (by decide)⟩

/-! ### Generated-content value parser (layoutFixer `parsePseudoContent`) -/

def backslashChar : Char := '\\'

def singleQuoteChar : Char := Char.ofNat 39

/-- Case-insensitive-optional literal match at the head of the input; the
pattern is given lowercase. -/
def matchesLitCI (ci : Bool) : List Char → List Char → Bool
  | [], _ => true
  | _ :: _, [] => false
  | p :: ps, c :: cs => (if ci then p == c.toLower else p == c) && matchesLitCI ci ps cs

/-- Optional single trailing whitespace consumed by the `\s?` part of the
escape patterns. -/
def dropEscTail (ws : Bool) (l : List Char) : List Char :=
  if ws then
    match l with
    | w :: r2 => if isJsWhitespace w then r2 else l
    | [] => []
  else l

theorem dropEscTail_length_le (ws : Bool) (l : List Char) :
    (dropEscTail ws l).length ≤ l.length := by
  unfold dropEscTail
  split
  · split
    · split <;> simp
    · simp
  · simp

/-- One global JS `replace` pass for a pattern `\<lit>` (optionally
case-insensitive, optionally with a trailing `\s?`), scanning left to right
without rescanning the replacement text. The fuel argument (instantiated with
the input length, which bounds the number of scan steps since every step
consumes at least one character) keeps the recursion structural. -/
def replaceEscapeSeqAux (lit : List Char) (ci ws : Bool) (repl : List Char) :
    Nat → List Char → List Char
  | 0, l => l
  | _ + 1, [] => []
  | fuel + 1, c :: rest =>
      if c == backslashChar && matchesLitCI ci lit rest then
        repl ++ replaceEscapeSeqAux lit ci ws repl fuel (dropEscTail ws (rest.drop lit.length))
      else c :: replaceEscapeSeqAux lit ci ws repl fuel rest

def replaceEscapeSeq (lit : List Char) (ci ws : Bool) (repl : List Char)
    (l : List Char) : List Char :=
  replaceEscapeSeqAux lit ci ws repl l.length l

/-- The escape decoding of the quoted-string branch of `parsePseudoContent`:
the five sequential `replace` passes `\a\s?` (ci) → newline, `\2022\s?` →
bullet, `\00a0\s?` → no-break space, `\e` (ci) → dropped, `\\` → backslash. -/
def decodePseudoEscapes (l : List Char) : List Char :=
  replaceEscapeSeq [backslashChar] false false [backslashChar]
    (replaceEscapeSeq ['e'] true false []
      (replaceEscapeSeq ['0', '0', 'a', '0'] false true [Char.ofNat 160]
        (replaceEscapeSeq ['2', '0', '2', '2'] false true [Char.ofNat 8226]
          (replaceEscapeSeq ['a'] true true ['\n'] l))))

def isCssQuote (c : Char) : Bool :=
  c == '"' || c == singleQuoteChar

/-- Character admitted by `[^"')]` in the url pattern. -/
def urlBodyChar (c : Char) : Bool :=
  !(c == '"' || c == singleQuoteChar || c == ')')

/-- Attempt of `url\(["']?([^"')]+)["']?\)` anchored at the head of the
input, returning the captured group. -/
def urlMatchAt (l : List Char) : Option (List Char) :=
  match l with
  | 'u' :: 'r' :: 'l' :: '(' :: rest =>
      let rest1 :=
        match rest with
        | c :: cs => if isCssQuote c then cs else rest
        | [] => rest
      let body := rest1.takeWhile urlBodyChar
      let rest2 := rest1.dropWhile urlBodyChar
      if body.isEmpty then none
      else
        match rest2 with
        | ')' :: _ => some body
        | q :: ')' :: _ => if isCssQuote q then some body else none
        | _ => none
  | _ => none

/-- Attempt of `counter\(([^)]+)\)` anchored at the head of the input. -/
def counterMatchAt (l : List Char) : Option (List Char) :=
  match l with
  | 'c' :: 'o' :: 'u' :: 'n' :: 't' :: 'e' :: 'r' :: '(' :: rest =>
      let body := rest.takeWhile (fun c => !(c == ')'))
      let rest2 := rest.dropWhile (fun c => !(c == ')'))
      if body.isEmpty then none
      else
        match rest2 with
        | ')' :: _ => some body
        | _ => none
  | _ => none

/-- Attempt of `attr\(([^)]+)\)` anchored at the head of the input. -/
def attrMatchAt (l : List Char) : Option (List Char) :=
  match l with
  | 'a' :: 't' :: 't' :: 'r' :: '(' :: rest =>
      let body := rest.takeWhile (fun c => !(c == ')'))
      let rest2 := rest.dropWhile (fun c => !(c == ')'))
      if body.isEmpty then none
      else
        match rest2 with
        | ')' :: _ => some body
        | _ => none
  | _ => none

/-- Unanchored (leftmost) regex search: try the anchored attempt at every
start position. -/
def findMatch (matchAt : List Char → Option (List Char)) :
    List Char → Option (List Char)
  | [] => none
  | c :: rest =>
      match matchAt (c :: rest) with
      | some v => some v
      | none => findMatch matchAt rest

/-- Character excluded by `.` in a JS regex without the `s` flag. -/
def regexDotExcluded (c : Char) : Bool :=
  c == '\n' || c == '\r' || c == Char.ofNat 8232 || c == Char.ofNat 8233

/-- Attempt of `^["'](.*)["']$`: first and last characters are quotes (not
necessarily matching) and the middle contains no line terminator. -/
def stringLiteralMatch (l : List Char) : Option (List Char) :=
  match l with
  | c :: rest =>
      match rest.getLast? with
      | some lastC =>
          if isCssQuote c && isCssQuote lastC &&
              rest.dropLast.all (fun x => !regexDotExcluded x) then
            some rest.dropLast
          else none
      | none => none
  | [] => none

inductive PseudoKind where
  | text
  | image
  | counter
deriving Repr, DecidableEq

/-- The `ContentDescriptor` produced by the parser. -/
structure ParsedPseudoContent where
  type : PseudoKind
  value : String
deriving Repr, DecidableEq

/-- Embedding of `parsePseudoContent(rawContent)` (layoutFixer): falsy /
`none` / `normal` yield no content; otherwise the url, counter, attr and
quoted-string patterns are tried in priority order on the trimmed input. In
the quoted-string branch the raw captured value is checked against `''` and
`' '` BEFORE escape decoding. The source's final explicit check for `""` /
`''` and its fall-through both return null and collapse into the last
branch. -/
def parsePseudoContent (rawContent : String) : Option ParsedPseudoContent :=
  if rawContent = "" ∨ rawContent = "none" ∨ rawContent = "normal" then none
  else
    let trimmed := jsTrim rawContent
    match findMatch urlMatchAt trimmed.toList with
    | some url => some ⟨.image, String.mk url⟩
    | none =>
      match findMatch counterMatchAt trimmed.toList with
      | some _ => some ⟨.counter, ""⟩
      | none =>
        match findMatch attrMatchAt trimmed.toList with
        | some _ => some ⟨.text, ""⟩
        | none =>
          match stringLiteralMatch trimmed.toList with
          | some inner =>
              if inner = [] ∨ inner = [' '] then none
              else some ⟨.text, String.mk (decodePseudoEscapes inner)⟩
          | none => none

/-- Counterexample to C4: the quoted bare `\e` escape — raw captured value
`\e`, decoded value empty — still yields a text descriptor with empty value,
because the emptiness check runs on the raw value before escape decoding. -/
theorem parsePseudoContent_escapedE_counterexample :
    parsePseudoContent "\"\\e\"" = some ⟨.text, ""⟩ ∧
    decodePseudoEscapes [backslashChar, 'e'] = [] := by
  constructor
  · rfl
  · rfl

/-- C4 (amended): in the quoted-string branch, the no-content check applies
to the RAW captured value, before escape decoding: under the hypotheses that
none of the url/counter/attr patterns occurs and the quoted-string pattern
captures `inner`, the parser returns no descriptor exactly when `inner` is
empty or a single space. (A quoted string whose DECODED value is empty, such
as a bare `\e` escape, still yields a text descriptor.) -/
theorem parsePseudoContent_quoted_raw_empty_iff (rawContent : String)
    (inner : List Char)
    (hurl : findMatch urlMatchAt (jsTrim rawContent).toList = none)
    (hcounter : findMatch counterMatchAt (jsTrim rawContent).toList = none)
    (hattr : findMatch attrMatchAt (jsTrim rawContent).toList = none)
    (hstr : stringLiteralMatch (jsTrim rawContent).toList = some inner) :
    (parsePseudoContent rawContent = none ↔ (inner = [] ∨ inner = [' '])) := by
  have hne : ¬(rawContent = "" ∨ rawContent = "none" ∨ rawContent = "normal") := by
    rintro (h | h | h) <;> subst h
    · rw [(rfl : stringLiteralMatch (jsTrim "").toList = none)] at hstr
      exact Option.noConfusion hstr
    · rw [(rfl : stringLiteralMatch (jsTrim "none").toList = none)] at hstr
      exact Option.noConfusion hstr
    · rw [(rfl : stringLiteralMatch (jsTrim "normal").toList = none)] at hstr
      exact Option.noConfusion hstr
  unfold parsePseudoContent
  rw [if_neg hne]
  simp only [hurl, hcounter, hattr, hstr]
  split_ifs with hcond <;> simp [hcond]

/-- Witness for C4 (amended) at the quoted single space: the parser returns
no descriptor. -/
theorem parsePseudoContent_quoted_raw_empty_iff_witness :
    (findMatch urlMatchAt (jsTrim "\" \"").toList = none) ∧
    (findMatch counterMatchAt (jsTrim "\" \"").toList = none) ∧
    (findMatch attrMatchAt (jsTrim "\" \"").toList = none) ∧
    (stringLiteralMatch (jsTrim "\" \"").toList = some [' ']) ∧
    parsePseudoContent "\" \"" = none := by
  refine ⟨rfl, rfl, rfl, rfl, ?_⟩
  exact (parsePseudoContent_quoted_raw_empty_iff "\" \"" [' '] rfl rfl rfl rfl).mpr
    (Or.inr rfl)

/-- Counterexample to C5: the quoted input `"\2022 item"` decodes to `•item`
— the space after the hex escape is consumed by the `\s?` terminator of the
replace pattern — not to `• item` (bullet, space, item) as claimed. -/
theorem parsePseudoContent_bullet_roundtrip_counterexample :
    parsePseudoContent "\"\\2022 item\"" = some ⟨.text, "•item"⟩ ∧
    ("•item" : String) ≠ "• item" := by
  constructor
  · rfl
  · decide

/-- C5 (amended): the escape round trips as the code actually decodes them:
`"\2022 item"` → `•item` (escape-terminating space consumed), `"\a"` → a
newline, and an escaped backslash `"hello\\world"` → `hello\world`. -/
theorem parsePseudoContent_escape_roundtrips :
    parsePseudoContent "\"\\2022 item\"" = some ⟨.text, "•item"⟩ ∧
    parsePseudoContent "\"\\a\"" = some ⟨.text, "\n"⟩ ∧
    parsePseudoContent "\"hello\\\\world\"" = some ⟨.text, "hello\\world"⟩ :=
  ⟨rfl, rfl, rfl⟩

/-! ### Element cloner / style materializer (styleCache.ts
`applyComputedStylesToElement`) -/

/-- Ordered inline-style declaration list of a clone node:
(css-property-name, value, important). -/
abbrev InlineStyle := List (String × String × Bool)

/-- CSSOM `style.removeProperty(p)`. Declaration lists built by
`setProperty` hold each property at most once, so removing every occurrence
coincides with CSSOM's removal of the one declaration. -/
def removeProp : InlineStyle → String → InlineStyle
  | [], _ => []
  | (q, w, b) :: rest, p =>
      if q = p then removeProp rest p else (q, w, b) :: removeProp rest p

def setPropAux : InlineStyle → String → String → Bool → InlineStyle
  | [], p, v, imp => [(p, v, imp)]
  | (q, w, b) :: rest, p, v, imp =>
      if q = p then (p, v, imp) :: rest else (q, w, b) :: setPropAux rest p v imp

/-- CSSOM `style.setProperty(p, v[, 'important'])` (also modelling JS
property assignment `style.foo = v`, which is `setProperty` without
priority): an existing declaration is replaced in place, and an empty value
removes the declaration. -/
def setProp (st : InlineStyle) (p v : String) (imp : Bool) : InlineStyle :=
  if v = "" then removeProp st p else setPropAux st p v imp

/-- The declaration recorded for property `p`, if any: (value, important). -/
def lookupProp : InlineStyle → String → Option (String × Bool)
  | [], _ => none
  | (q, w, b) :: rest, p => if q = p then some (w, b) else lookupProp rest p

theorem lookupProp_removeProp_self (st : InlineStyle) (p : String) :
    lookupProp (removeProp st p) p = none := by
  induction st with
  | nil => rfl
  | cons d rest ih =>
      obtain ⟨q, w, b⟩ := d
      by_cases hq : q = p
      · simp [removeProp, hq, ih]
      · simp [removeProp, lookupProp, hq, ih]

theorem lookupProp_setProp_ne (st : InlineStyle) (p v : String) (imp : Bool)
    (q : String) (h : p ≠ q) :
    lookupProp (setProp st p v imp) q = lookupProp st q := by
  unfold setProp
  split
  · induction st with
    | nil => rfl
    | cons d rest ih =>
        obtain ⟨r, w, b⟩ := d
        by_cases hr : r = p
        · subst hr
          simp [removeProp, lookupProp, h, Ne.symm h, ih]
        · simp [removeProp, lookupProp, hr, ih]
  · induction st with
    | nil => simp [setPropAux, lookupProp, h]
    | cons d rest ih =>
        obtain ⟨r, w, b⟩ := d
        by_cases hr : r = p
        · subst hr
          simp [setPropAux, lookupProp, h, Ne.symm h]
        · simp [setPropAux, lookupProp, hr, ih]

theorem lookupProp_ite (c : Prop) [Decidable c] (a b : InlineStyle) (q : String) :
    lookupProp (if c then a else b) q = if c then lookupProp a q else lookupProp b q := by
  split <;> rfl

/-- The clone node being written to: tag/class (copied from the source by the
structural clone), its inline style, and the `data-zenreader-styled` marker
attribute. -/
structure CloneTarget where
  tagName : String
  className : String
  style : InlineStyle
  zenreaderStyled : Bool
deriving Repr, DecidableEq

/-- Key style properties copied inline during cloning (styleCache.ts
`IMPORTANT_STYLE_PROPERTIES`). -/
def IMPORTANT_STYLE_PROPERTIES : List String :=
  ["color", "font-family", "font-size", "font-weight", "font-style",
   "text-align", "text-decoration", "line-height", "letter-spacing",
   "background-color", "background-image", "background-size", "background-position",
   "display", "position", "margin", "padding", "border",
   "opacity", "box-shadow", "border-radius"]

/-- Extended allow-list (styleCache.ts `EXTENDED_STYLE_PROPERTIES`). -/
def EXTENDED_STYLE_PROPERTIES : List String :=
  IMPORTANT_STYLE_PROPERTIES ++
  ["white-space", "word-spacing", "word-break", "flex", "flex-direction",
   "flex-wrap", "flex-flow", "justify-content", "align-items", "align-content",
   "grid", "grid-template", "grid-template-columns", "grid-template-rows",
   "column-gap", "row-gap", "gap"]

def isAsciiLowerAlpha (c : Char) : Bool :=
  'a' ≤ c && c ≤ 'z'

/-- JS `prop.replace(re, (_, letter) => letter.toUpperCase())` where `re` is
the global pattern "hyphen followed by an ascii lowercase letter". -/
def camelizeChars : List Char → List Char
  | [] => []
  | '-' :: c :: rest =>
      if isAsciiLowerAlpha c then c.toUpper :: camelizeChars rest
      else '-' :: camelizeChars (c :: rest)
  | c :: rest => c :: camelizeChars rest

def camelize (s : String) : String :=
  String.mk (camelizeChars s.toList)

/-- Step 2 of `applyComputedStylesToElement`: the top-level (subtree root)
normalization block. -/
def applyTopLevelStyles (cs : CStyle) (st : InlineStyle) : InlineStyle :=
  let st := setProp st "width" "100%" true
  let st := setProp st "max-width" "100%" true
  let st := setProp st "box-sizing" "border-box" true
  let st := setProp st "padding-left" "0" true
  let st := setProp st "padding-right" "0" true
  let st :=
    if cs "float" ≠ "" ∧ cs "float" ≠ "none" then setProp st "float" "none" true else st
  let st :=
    if cs "position" = "fixed" ∨ cs "position" = "absolute" then
      setProp st "position" "relative" true
    else st
  let st := setProp st "margin-left" "0" true
  let st := setProp st "margin-right" "0" true
  let st :=
    if cs "columnCount" ≠ "" ∧ cs "columnCount" ≠ "auto" then
      setProp st "column-count" "1" true
    else st
  if cs "transform" ≠ "" ∧ cs "transform" ≠ "none" then
    setProp st "transform" "none" true
  else st

/-- Step 3 of `applyComputedStylesToElement`: the tag-like branch — preserve
display/float/flex important, clear any forced width, copy margins and
white-space. -/
def applyTagLikeStyles (cs : CStyle) (st : InlineStyle) : InlineStyle :=
  let st := if cs "display" ≠ "" then setProp st "display" (cs "display") true else st
  let st :=
    if cs "float" ≠ "" ∧ cs "float" ≠ "none" then setProp st "float" (cs "float") true
    else st
  let st := if cs "flex" ≠ "" then setProp st "flex" (cs "flex") true else st
  let st := removeProp st "width"
  let st :=
    if cs "marginLeft" ≠ "" then setProp st "margin-left" (cs "marginLeft") false else st
  let st :=
    if cs "marginRight" ≠ "" then setProp st "margin-right" (cs "marginRight") false
    else st
  if cs "whiteSpace" ≠ "" then setProp st "white-space" (cs "whiteSpace") true else st

/-- Step 4 of `applyComputedStylesToElement`: element-class-specific width
rules for ordinary descendants. -/
def applyDescendantWidthStyles (targetTag targetClassName : String)
    (source : SrcElem) (st : InlineStyle) : InlineStyle :=
  let tagName := jsToLower targetTag
  let st :=
    if ["div", "section", "article", "main", "header", "footer", "nav", "aside"].contains
        tagName then
      if source.childElementCount > 0 ∨ (jsTrim source.innerText).length > 0 then
        setProp st "width" "100%" true
      else st
    else st
  let st :=
    if ["img", "video", "iframe", "canvas", "svg"].contains tagName then
      let st := setProp st "max-width" "100%" true
      let st := setProp st "height" "auto" true
      if tagName = "img" ∨ tagName = "video" then
        match source.parent with
        | some par =>
            if par.childElementCount = 1 then
              let st := setProp st "display" "block" true
              let st := setProp st "margin-left" "auto" true
              setProp st "margin-right" "auto" true
            else st
        | none => st
      else st
    else st
  let st :=
    if tagName = "table" then
      let st := setProp st "width" "100%" true
      let st := setProp st "max-width" "100%" true
      if source.offsetWidth > 500 then
        setProp (setProp st "display" "block" true) "overflow-x" "auto" true
      else st
    else st
  if tagName = "div" then
    let hasParagraphs := source.paragraphCount > 0
    let hasHeadings := source.headingCount > 0
    let hasMultipleChildren := source.childElementCount > 2
    if hasParagraphs ∨ hasHeadings ∨ hasMultipleChildren then
      let st := setProp st "width" "100%" true
      let containsContentClass :=
        ["content", "article", "post", "main", "body", "text"].any
          (fun w => containsStr (jsToLower targetClassName) w)
      if containsContentClass then
        setProp (setProp (setProp st "max-width" "100%" true) "margin-left" "0" true)
          "margin-right" "0" true
      else st
    else st
  else st

/-- Step 5a of `applyComputedStylesToElement`: force display through (unless
computed display is `none`) and copy background-color / text color as
important. -/
def applyDisplayColorStyles (cs : CStyle) (st : InlineStyle) : InlineStyle :=
  let st := if cs "display" ≠ "none" then setProp st "display" (cs "display") true else st
  let st :=
    if cs "backgroundColor" ≠ "" ∧ cs "backgroundColor" ≠ "rgba(0, 0, 0, 0)" ∧
        cs "backgroundColor" ≠ "transparent" then
      setProp st "background-color" (cs "backgroundColor") true
    else st
  if cs "color" ≠ "" then setProp st "color" (cs "color") true else st

/-- Step 5b of `applyComputedStylesToElement`: the `background` shorthand if
meaningful, else the individual background longhands. -/
def applyBackgroundStyles (cs : CStyle) (st : InlineStyle) : InlineStyle :=
  if cs "background" ≠ "" ∧ cs "background" ≠ "none" ∧
      cs "background" ≠ "rgba(0, 0, 0, 0)" then
    setProp st "background" (cs "background") true
  else
    let st :=
      if cs "backgroundImage" ≠ "" ∧ cs "backgroundImage" ≠ "none" then
        setProp st "background-image" (cs "backgroundImage") false
      else st
    let st :=
      if cs "backgroundPosition" ≠ "" then
        setProp st "background-position" (cs "backgroundPosition") false
      else st
    let st :=
      if cs "backgroundRepeat" ≠ "" then
        setProp st "background-repeat" (cs "backgroundRepeat") false
      else st
    let st :=
      if cs "backgroundSize" ≠ "" ∧ cs "backgroundSize" ≠ "auto" then
        setProp st "background-size" (cs "backgroundSize") false
      else st
    let st :=
      if cs "backgroundOrigin" ≠ "" then
        setProp st "background-origin" (cs "backgroundOrigin") false
      else st
    let st :=
      if cs "backgroundClip" ≠ "" then
        setProp st "background-clip" (cs "backgroundClip") false
      else st
    if cs "backgroundAttachment" ≠ "" then
      setProp st "background-attachment" (cs "backgroundAttachment") false
    else st

/-- Step 5c of `applyComputedStylesToElement`: one iteration of the
`EXTENDED_STYLE_PROPERTIES.forEach` copy loop. -/
def applyExtendedProperty (cs : CStyle) (isTopLevel : Bool) (st : InlineStyle)
    (prop : String) : InlineStyle :=
  if isTopLevel ∧ (prop = "width" ∨ prop = "max-width") then st
  else if jsStartsWith prop "background" then st
  else
    let value := cs (camelize prop)
    if value ≠ "" ∧ value ≠ "none" ∧ value ≠ "normal" ∧ value ≠ "0px" ∧
        value ≠ "rgba(0, 0, 0, 0)" ∧ value ≠ "transparent" then
      setProp st prop value false
    else st

def applyExtendedProperties (cs : CStyle) (isTopLevel : Bool)
    (st : InlineStyle) : InlineStyle :=
  EXTENDED_STYLE_PROPERTIES.foldl (applyExtendedProperty cs isTopLevel) st

/-- Step 6 of `applyComputedStylesToElement`: tag-specific finishing touches
(anchors, images, headings, paragraphs, lists, and the `pre`/`code` block
that includes a forced scrollable width). -/
def applyTagSpecificStyles (targetTag : String) (cs : CStyle)
    (st : InlineStyle) : InlineStyle :=
  let st :=
    if jsToLower targetTag = "a" then
      setProp (setProp st "color" (cs "color") false)
        "text-decoration" (cs "textDecoration") false
    else st
  let st :=
    if jsToLower targetTag = "img" then
      setProp (setProp (setProp st "max-width" "100%" false) "height" "auto" false)
        "display" "inline-block" false
    else st
  let tagNameUpper := jsToUpper targetTag
  let st :=
    if ["H1", "H2", "H3", "H4", "H5", "H6"].contains tagNameUpper then
      let st := setProp st "font-weight" (jsOr (cs "fontWeight") "bold") false
      let st := setProp st "margin" (jsOr (cs "margin") "0.5em 0") false
      setProp st "line-height" (jsOr (cs "lineHeight") "1.2") false
    else st
  let st :=
    if tagNameUpper = "P" then setProp st "margin" (jsOr (cs "margin") "1em 0") false
    else st
  let st :=
    if ["UL", "OL"].contains tagNameUpper then
      let st := setProp st "padding-left" (jsOr (cs "paddingLeft") "40px") false
      let st := setProp st "margin-top" (jsOr (cs "marginTop") "1em") false
      setProp st "margin-bottom" (jsOr (cs "marginBottom") "1em") false
    else st
  if tagNameUpper = "PRE" ∨ tagNameUpper = "CODE" then
    let st := setProp st "font-family" "monospace" false
    let st := setProp st "white-space" "pre-wrap" false
    let st := setProp st "background-color" (jsOr (cs "backgroundColor") "#f5f5f5") false
    let st := setProp st "padding" (jsOr (cs "padding") "0.2em 0.4em") false
    let st := setProp st "width" "100%" false
    setProp st "overflow" "auto" false
  else st

/-- Embedding of `applyComputedStylesToElement(target, source, isMainContent,
isTopLevel)` (styleCache.ts lines 113–322). `cs` is the resolved computed
style of the source (cache hit or live query); a missing text color aborts
without writing anything. -/
def applyComputedStylesToElement (target : CloneTarget) (source : SrcElem)
    (cs : CStyle) (isMainContent isTopLevel : Bool) : CloneTarget :=
  if cs "color" = "" then target
  else
    let isPossibleTag := isPossibleTagElement source cs
    let st := target.style
    let st :=
      if isTopLevel then applyTopLevelStyles cs st
      else if isPossibleTag then applyTagLikeStyles cs st
      else applyDescendantWidthStyles target.tagName target.className source st
    let st := applyDisplayColorStyles cs st
    let st := applyBackgroundStyles cs st
    let st := applyExtendedProperties cs isTopLevel st
    let st := applyTagSpecificStyles target.tagName cs st
    { target with style := st, zenreaderStyled := true }

theorem lookup_width_applyTagLike (cs : CStyle) (st : InlineStyle) :
    lookupProp (applyTagLikeStyles cs st) "width" = none := by
  simp [applyTagLikeStyles, lookupProp_ite, lookupProp_setProp_ne,
    lookupProp_removeProp_self]

theorem lookup_width_applyDisplayColor (cs : CStyle) (st : InlineStyle) :
    lookupProp (applyDisplayColorStyles cs st) "width" = lookupProp st "width" := by
  simp [applyDisplayColorStyles, lookupProp_ite, lookupProp_setProp_ne]

theorem lookup_width_applyBackground (cs : CStyle) (st : InlineStyle) :
    lookupProp (applyBackgroundStyles cs st) "width" = lookupProp st "width" := by
  simp [applyBackgroundStyles, lookupProp_ite, lookupProp_setProp_ne]

theorem lookup_width_applyExtendedProperty (cs : CStyle) (isTopLevel : Bool)
    (st : InlineStyle) (prop : String) (h : prop ≠ "width") :
    lookupProp (applyExtendedProperty cs isTopLevel st prop) "width" =
      lookupProp st "width" := by
  simp [applyExtendedProperty, lookupProp_ite, lookupProp_setProp_ne, h]

theorem lookup_width_applyExtendedList (cs : CStyle) (isTopLevel : Bool)
    (props : List String) (st : InlineStyle) (h : "width" ∉ props) :
    lookupProp (props.foldl (applyExtendedProperty cs isTopLevel) st) "width" =
      lookupProp st "width" := by
  induction props generalizing st with
  | nil => rfl
  | cons prop rest ih =>
      rw [List.foldl_cons, ih _ (by simp at h; exact h.2),
        lookup_width_applyExtendedProperty _ _ _ _ (by simp at h; exact Ne.symm h.1)]

theorem lookup_width_applyExtended (cs : CStyle) (isTopLevel : Bool)
    (st : InlineStyle) :
    lookupProp (applyExtendedProperties cs isTopLevel st) "width" =
      lookupProp st "width" :=
  lookup_width_applyExtendedList cs isTopLevel _ st (by decide)

theorem lookup_width_applyTagSpecific (targetTag : String) (cs : CStyle)
    (st : InlineStyle) (hpre : jsToUpper targetTag ≠ "PRE")
    (hcode : jsToUpper targetTag ≠ "CODE") :
    lookupProp (applyTagSpecificStyles targetTag cs st) "width" =
      lookupProp st "width" := by
  have hcond : ¬(jsToUpper targetTag = "PRE" ∨ jsToUpper targetTag = "CODE") := by
    tauto
  simp [applyTagSpecificStyles, hcond, lookupProp_ite, lookupProp_setProp_ne]

/-- C1 (amended): for every source element classified tag-like and processed
as a non-top-level node whose tag is not PRE and not CODE, the materialized
clone node carries no `width` declaration at all (the tag-like branch clears
any pre-existing width and nothing later writes one). For tag-like PRE / CODE
nodes, the finishing-touch step does write `width: 100%` (see the
counterexample). -/
theorem applyComputedStyles_tagLike_no_width (target : CloneTarget)
    (source : SrcElem) (cs : CStyle) (isMainContent : Bool)
    (hcolor : cs "color" ≠ "")
    (htag : isPossibleTagElement source cs = true)
    (hpre : jsToUpper target.tagName ≠ "PRE")
    (hcode : jsToUpper target.tagName ≠ "CODE") :
    lookupProp
      (applyComputedStylesToElement target source cs isMainContent false).style
      "width" = none := by
  unfold applyComputedStylesToElement
  rw [if_neg hcolor]
  simp only [htag, Bool.false_eq_true, if_false, if_true]
  rw [lookup_width_applyTagSpecific _ _ _ hpre hcode, lookup_width_applyExtended,
    lookup_width_applyBackground, lookup_width_applyDisplayColor,
    lookup_width_applyTagLike]

/-- Witness for C1 (amended): a concrete tag-like SPAN clone whose initial
inline style even carries a width; after materialization no width declaration
remains. -/
theorem applyComputedStyles_tagLike_no_width_witness :
    ((fun p => if p = "color" then "rgb(0, 0, 0)" else "") "color" ≠ "") ∧
    isPossibleTagElement
      ⟨"SPAN", "tag", "", "#news", 0, 0, 0, 40, none⟩
      (fun p => if p = "color" then "rgb(0, 0, 0)" else "") = true ∧
    jsToUpper "SPAN" ≠ "PRE" ∧ jsToUpper "SPAN" ≠ "CODE" ∧
    lookupProp
      (applyComputedStylesToElement
        ⟨"SPAN", "tag", [("width", "50px", false)], false⟩
        ⟨"SPAN", "tag", "", "#news", 0, 0, 0, 40, none⟩
        (fun p => if p = "color" then "rgb(0, 0, 0)" else "") false false).style
      "width" = none := by
  refine ⟨by decide, by decide, by decide, by decide, ?_⟩
  exact applyComputedStyles_tagLike_no_width
    ⟨"SPAN", "tag", [("width", "50px", false)], false⟩
    ⟨"SPAN", "tag", "", "#news", 0, 0, 0, 40, none⟩
    (fun p => if p = "color" then "rgb(0, 0, 0)" else "") false
    (by decide) (by decide) (by decide) (by decide)

/-- Counterexample to C1 as stated: a tag-like PRE node (class "tag"),
processed as non-top-level, DOES receive a forced full width from the
pre/code finishing touches — the clone ends up with `width: 100%`. -/
theorem applyComputedStyles_tagLike_pre_width_counterexample :
    isPossibleTagElement
      ⟨"PRE", "tag", "", "x", 0, 0, 0, 40, none⟩
      (fun p => if p = "color" then "rgb(0, 0, 0)" else "") = true ∧
    lookupProp
      (applyComputedStylesToElement
        ⟨"PRE", "tag", [], false⟩
        ⟨"PRE", "tag", "", "x", 0, 0, 0, 40, none⟩
        (fun p => if p = "color" then "rgb(0, 0, 0)" else "") false false).style
      "width" = some ("100%", false) := by
  constructor
  · decide
  · decide

/-! ### Pseudo-content materializer walk (layoutFixer
`materializePseudoElements`) -/

mutual
/-- Document-order (pre-order) id sequence of a tree. -/
def preorder : PTree → List Nat
  | .node i cs => i :: preorderList cs

def preorderList : List PTree → List Nat
  | [] => []
  | t :: ts => preorder t ++ preorderList ts
end

/-- The element after `cur` in a document-order sequence. -/
def nextAfter : List Nat → Nat → Option Nat
  | [], _ => none
  | [_], _ => none
  | a :: b :: rest, cur => if a = cur then some b else nextAfter (b :: rest) cur

/-- `TreeWalker.nextNode()` from the node `cur` of the (possibly mutated)
tree `root`: the next node in document order within the subtree. -/
def nextNodeFrom (root : PTree) (cur : Nat) : Option Nat :=
  nextAfter (preorder root) cur

mutual
/-- `parent.insertBefore(child, parent.firstChild)` (`first = true`) or
`parent.appendChild(child)` (`first = false`) at the node with id
`parentId`. -/
def insertChild (first : Bool) (parentId : Nat) (child : PTree) : PTree → PTree
  | .node i cs =>
      if i = parentId then
        .node i (if first then child :: cs else cs ++ [child])
      else .node i (insertChildList first parentId child cs)

def insertChildList (first : Bool) (parentId : Nat) (child : PTree) :
    List PTree → List PTree
  | [] => []
  | t :: ts =>
      insertChild first parentId child t :: insertChildList first parentId child ts
end

inductive PseudoPos where
  | before
  | after
deriving Repr, DecidableEq

/-- Embedding of `materializeSinglePseudo(sourceEl, cloneEl, pseudoType)`:
`content`/`display` are the oracles for
`getComputedStyle(sourceEl, pseudoType)`; on a parseable content value one
inert span (plus an inner img node for image descriptors) is inserted as
first (`::before`) or last (`::after`) child of the CLONE node. Returns the
mutated clone tree and the next fresh node id. -/
def materializeSinglePseudo (content display : Nat → PseudoPos → String)
    (srcId cloneId : Nat) (pos : PseudoPos) (cloneTree : PTree) (fresh : Nat) :
    PTree × Nat :=
  let rawContent := content srcId pos
  if rawContent = "" ∨ rawContent = "none" ∨ rawContent = "normal" then
    (cloneTree, fresh)
  else if display srcId pos = "none" then (cloneTree, fresh)
  else
    match parsePseudoContent rawContent with
    | none => (cloneTree, fresh)
    | some parsed =>
        let span :=
          if parsed.type = PseudoKind.image then
            PTree.node fresh [PTree.node (fresh + 1) []]
          else PTree.node fresh []
        let fresh2 := if parsed.type = PseudoKind.image then fresh + 2 else fresh + 1
        (insertChild (decide (pos = PseudoPos.before)) cloneId span cloneTree, fresh2)

/-- The `while (sourceNode && cloneNode)` loop. The source walker runs over
the immutable source tree, so its successive `nextNode()` values are exactly
the tail of the source pre-order; the clone walker is live, so its next node
is recomputed from the CURRENT (mutated) clone tree at every step. `acc`
records every (sourceId, cloneId) pair handed to `materializeSinglePseudo`. -/
def pseudoWalkLoop (content display : Nat → PseudoPos → String) :
    List Nat → PTree → Option Nat → Nat → List (Nat × Nat) →
      PTree × List (Nat × Nat)
  | [], cloneTree, _, _, acc => (cloneTree, acc)
  | _ :: _, cloneTree, none, _, acc => (cloneTree, acc)
  | s :: rest, cloneTree, some c, fresh, acc =>
      let r1 := materializeSinglePseudo content display s c .before cloneTree fresh
      let r2 := materializeSinglePseudo content display s c .after r1.1 r1.2
      pseudoWalkLoop content display rest r2.1 (nextNodeFrom r2.1 c) r2.2
        (acc ++ [(s, c)])

/-- Embedding of `materializePseudoElements(sourceRoot, cloneRoot)`: process
the root pair, then walk both trees with the two walkers. Returns the mutated
clone tree and the processed (source, clone) pair list. -/
def materializePseudoElements (content display : Nat → PseudoPos → String)
    (sourceRoot cloneRoot : PTree) (fresh : Nat) : PTree × List (Nat × Nat) :=
  let r1 := materializeSinglePseudo content display sourceRoot.rootId
    cloneRoot.rootId .before cloneRoot fresh
  let r2 := materializeSinglePseudo content display sourceRoot.rootId
    cloneRoot.rootId .after r1.1 r1.2
  pseudoWalkLoop content display ((preorder sourceRoot).drop 1) r2.1
    (nextNodeFrom r2.1 cloneRoot.rootId) r2.2
    [(sourceRoot.rootId, cloneRoot.rootId)]

/-- C7 (code evaluated at the failing input): source tree `0 → [1]`, clone
tree `10 → [11]`, with generated `::before` content `"x"` on the source root
only. The materializer inserts the stand-in span (fresh id 100) as first
child of the clone root; the live clone walker then visits that span, so the
second processed pair is (source 1, span 100) — not (source 1, clone 11) as
the structural pairing requires. With no root generated content the same
trees pair correctly as [(0, 10), (1, 11)]. -/
theorem materializePseudo_misaligned_pairs :
    (materializePseudoElements
        (fun i pos => if i = 0 ∧ pos = PseudoPos.before then "\"x\"" else "")
        (fun _ _ => "block")
        (.node 0 [.node 1 []]) (.node 10 [.node 11 []]) 100).2 =
      [(0, 10), (1, 100)] ∧
    preorder
      (materializePseudoElements
        (fun i pos => if i = 0 ∧ pos = PseudoPos.before then "\"x\"" else "")
        (fun _ _ => "block")
        (.node 0 [.node 1 []]) (.node 10 [.node 11 []]) 100).1 =
      [10, 100, 11] ∧
    (100 : Nat) ≠ 11 ∧
    (materializePseudoElements (fun _ _ => "") (fun _ _ => "block")
        (.node 0 [.node 1 []]) (.node 10 [.node 11 []]) 100).2 =
      [(0, 10), (1, 11)] :=
  ⟨rfl, rfl, by decide, rfl⟩

/-! ### Deferred-asset resolver (domUtils.ts `resolveLazyImages`) -/

/-- DOM element for the resolver: lowercased tag name, attribute list,
`textContent`, element children. -/
inductive DElem where
  | node (tag : String) (attrs : List (String × String)) (text : String)
      (children : List DElem)
deriving Repr

def DElem.tag : DElem → String
  | .node t _ _ _ => t

def DElem.attrs : DElem → List (String × String)
  | .node _ a _ _ => a

def DElem.text : DElem → String
  | .node _ _ x _ => x

def DElem.children : DElem → List DElem
  | .node _ _ _ cs => cs

/-- `getAttribute(name)`: `none` models `null`. -/
def getAttr : List (String × String) → String → Option String
  | [], _ => none
  | (k, v) :: rest, name => if k = name then some v else getAttr rest name

/-- `setAttribute(name, v)`: replace in place or append. -/
def setAttr : List (String × String) → String → String → List (String × String)
  | [], name, v => [(name, v)]
  | (k, w) :: rest, name, v =>
      if k = name then (name, v) :: rest else (k, w) :: setAttr rest name v

/-- `removeAttribute(name)`. -/
def removeAttr : List (String × String) → String → List (String × String)
  | [], _ => []
  | (k, w) :: rest, name =>
      if k = name then removeAttr rest name else (k, w) :: removeAttr rest name

/-- A truthy `getAttribute` result (JS `||` chains treat both `null` and the
empty string as falsy). -/
def truthyAttr (attrs : List (String × String)) (name : String) : Option String :=
  match getAttr attrs name with
  | some v => if v = "" then none else some v
  | none => none

/-- JS `a || b` over truthy attribute results. -/
def jsOrElse (a b : Option String) : Option String :=
  match a with
  | some v => some v
  | none => b

/-- `if (v) el.setAttribute(name, v)`. -/
def optSetAttr (attrs : List (String × String)) (name : String)
    (o : Option String) : List (String × String) :=
  match o with
  | some v => setAttr attrs name v
  | none => attrs

/-- The deferred-loading class tokens stripped from `img.className`. -/
def lazyClassTokens : List String :=
  ["lazy", "lazyload", "lazyloaded", "lazyloading"]

/-- JS `\w` word character. -/
def isWordChar (c : Char) : Bool :=
  c.isAlphanum || c == '_'

/-- One pass of the global word-boundary replace: a maximal word-character
run equal to one of the lazy tokens is dropped, everything else is kept
(fuel = input length keeps the recursion structural). -/
def stripLazyAux : Nat → List Char → List Char
  | 0, l => l
  | _ + 1, [] => []
  | fuel + 1, c :: rest =>
      if isWordChar c then
        (if lazyClassTokens.contains (String.mk (c :: rest.takeWhile isWordChar)) then []
         else c :: rest.takeWhile isWordChar) ++
          stripLazyAux fuel (rest.dropWhile isWordChar)
      else c :: stripLazyAux fuel rest

/-- `className.replace(wordBoundaryLazyTokens, '').trim()`. -/
def stripLazyClasses (s : String) : String :=
  jsTrim (String.mk (stripLazyAux s.toList.length s.toList))

/-- Steps of the per-image body of `resolveLazyImages` (domUtils.ts lines
121–154), in source order. -/
def imgLazySrcStep (attrs : List (String × String)) : List (String × String) :=
  optSetAttr attrs "src"
    (jsOrElse (truthyAttr attrs "data-src")
      (jsOrElse (truthyAttr attrs "data-lazy-src") (truthyAttr attrs "data-original")))

def imgSrcsetStep (attrs : List (String × String)) : List (String × String) :=
  optSetAttr attrs "srcset"
    (jsOrElse (truthyAttr attrs "data-srcset") (truthyAttr attrs "data-lazy-srcset"))

def imgSizesStep (attrs : List (String × String)) : List (String × String) :=
  optSetAttr attrs "sizes" (truthyAttr attrs "data-sizes")

def imgPlaceholderStep (attrs : List (String × String)) : List (String × String) :=
  if jsStartsWith ((getAttr attrs "src").getD "") "data:image/" = true ∧
      (truthyAttr attrs "data-src").isSome = true then
    setAttr attrs "src" ((getAttr attrs "data-src").getD "")
  else attrs

def imgLoadingStep (attrs : List (String × String)) : List (String × String) :=
  if getAttr attrs "loading" = some "lazy" then removeAttr attrs "loading" else attrs

def imgClassStep (attrs : List (String × String)) : List (String × String) :=
  setAttr attrs "class" (stripLazyClasses ((getAttr attrs "class").getD ""))

/-- Full attribute rewrite applied to each `img` found by
`querySelectorAll('img')`. -/
def resolveImgAttrs (attrs : List (String × String)) : List (String × String) :=
  imgClassStep (imgLoadingStep (imgPlaceholderStep (imgSizesStep
    (imgSrcsetStep (imgLazySrcStep attrs)))))

mutual
/-- The `img` pass applied to a node and (recursively) its subtree. -/
def imgPassNode : DElem → DElem
  | .node tag attrs text cs =>
      .node tag (if tag = "img" then resolveImgAttrs attrs else attrs) text
        (imgPassList cs)

def imgPassList : List DElem → List DElem
  | [] => []
  | c :: cs => imgPassNode c :: imgPassList cs
end

/-- `querySelectorAll('img')` matches descendants only, so the root's own
attributes are never rewritten. -/
def imgPass : DElem → DElem
  | .node tag attrs text cs => .node tag attrs text (imgPassList cs)

mutual
/-- The `picture source[data-srcset]` pass; `anc` records whether a
`picture` ancestor (up to and including the traversal root) exists. -/
def sourcePassNode (anc : Bool) : DElem → DElem
  | .node tag attrs text cs =>
      .node tag
        (if tag = "source" ∧ anc = true ∧ (getAttr attrs "data-srcset").isSome = true then
          setAttr attrs "srcset" ((getAttr attrs "data-srcset").getD "")
        else attrs)
        text (sourcePassList (anc || tag == "picture") cs)

def sourcePassList (anc : Bool) : List DElem → List DElem
  | [] => []
  | c :: cs => sourcePassNode anc c :: sourcePassList anc cs
end

def sourcePass : DElem → DElem
  | .node tag attrs text cs => .node tag attrs text (sourcePassList (tag == "picture") cs)

def setAttrOnNode (n : DElem) (name v : String) : DElem :=
  match n with
  | .node tag attrs text cs => .node tag (setAttr attrs name v) text cs

/-- Attempt of `src=["']([^"']+)["']` anchored at the head of the input. -/
def srcMatchAt (l : List Char) : Option (List Char) :=
  match l with
  | 's' :: 'r' :: 'c' :: '=' :: q :: rest =>
      if isCssQuote q then
        let body := rest.takeWhile (fun c => !isCssQuote c)
        let rest2 := rest.dropWhile (fun c => !isCssQuote c)
        if body.isEmpty then none
        else if rest2.isEmpty then none
        else some body
      else none
  | _ => none

/-- Leftmost `src=["']([^"']+)["']` match in a noscript's raw text. -/
def findSrcMatch : List Char → Option (List Char)
  | [] => none
  | c :: rest =>
      match srcMatchAt (c :: rest) with
      | some v => some v
      | none => findSrcMatch rest

/-- The noscript-fallback fix on one sibling list: a `noscript` whose
previous element sibling is an `img` donates the first `src="..."`
occurrence of its raw text to that image. -/
def noscriptFixSiblings : List DElem → List DElem
  | [] => []
  | [a] => [a]
  | a :: b :: rest =>
      if b.tag = "noscript" ∧ a.tag = "img" then
        match findSrcMatch b.text.toList with
        | some v => setAttrOnNode a "src" (String.mk v) :: noscriptFixSiblings (b :: rest)
        | none => a :: noscriptFixSiblings (b :: rest)
      else a :: noscriptFixSiblings (b :: rest)

mutual
/-- The `noscript` pass: fix every sibling list in the subtree (the node's
own attributes are only changed through its parent's sibling list). -/
def noscriptPassNode : DElem → DElem
  | .node tag attrs text cs =>
      .node tag attrs text (noscriptFixSiblings (noscriptPassList cs))

def noscriptPassList : List DElem → List DElem
  | [] => []
  | c :: cs => noscriptPassNode c :: noscriptPassList cs
end

/-- Embedding of `resolveLazyImages(cloneElement)`: the image pass, then the
`picture source` pass, then the noscript-fallback pass, over the clone tree
only (the function never sees the source tree). -/
def resolveLazyImages (cloneElement : DElem) : DElem :=
  noscriptPassNode (sourcePass (imgPass cloneElement))

/-- Path lookup (child indices) in a `DElem` tree. -/
def getElemAt : DElem → List Nat → Option DElem
  | e, [] => some e
  | .node _ _ _ cs, i :: p =>
      match cs[i]? with
      | some c => getElemAt c p
      | none => none

mutual
/-- No `noscript` element anywhere in the tree. -/
def noNoscript : DElem → Bool
  | .node tag _ _ cs => !(tag == "noscript") && noNoscriptList cs

def noNoscriptList : List DElem → Bool
  | [] => true
  | c :: cs => noNoscript c && noNoscriptList cs
end

theorem getAttr_setAttr_self (a : List (String × String)) (k v : String) :
    getAttr (setAttr a k v) k = some v := by
  induction a with
  | nil => simp [setAttr, getAttr]
  | cons p rest ih =>
      obtain ⟨q, w⟩ := p
      by_cases hq : q = k
      · simp [setAttr, getAttr, hq]
      · simp [setAttr, getAttr, hq, ih]

theorem getAttr_setAttr_ne (a : List (String × String)) (k v m : String)
    (h : k ≠ m) : getAttr (setAttr a k v) m = getAttr a m := by
  induction a with
  | nil => simp [setAttr, getAttr, h]
  | cons p rest ih =>
      obtain ⟨q, w⟩ := p
      by_cases hq : q = k
      · subst hq
        simp [setAttr, getAttr, h]
      · simp [setAttr, getAttr, hq, ih]

theorem getAttr_removeAttr_self (a : List (String × String)) (k : String) :
    getAttr (removeAttr a k) k = none := by
  induction a with
  | nil => rfl
  | cons p rest ih =>
      obtain ⟨q, w⟩ := p
      by_cases hq : q = k
      · simp [removeAttr, hq, ih]
      · simp [removeAttr, getAttr, hq, ih]

theorem getAttr_removeAttr_ne (a : List (String × String)) (k m : String)
    (h : k ≠ m) : getAttr (removeAttr a k) m = getAttr a m := by
  induction a with
  | nil => rfl
  | cons p rest ih =>
      obtain ⟨q, w⟩ := p
      by_cases hq : q = k
      · subst hq
        simp [removeAttr, getAttr, h, ih]
      · simp [removeAttr, getAttr, hq, ih]

theorem getAttr_optSetAttr_ne (a : List (String × String)) (k : String)
    (o : Option String) (m : String) (h : k ≠ m) :
    getAttr (optSetAttr a k o) m = getAttr a m := by
  cases o <;> simp [optSetAttr, getAttr_setAttr_ne, h]

/-- The attribute outcome of the per-image rewrite on a deferred image whose
`data-src` is `real.jpg` and whose `loading` is absent or `lazy`. -/
theorem resolveImgAttrs_spec (attrs : List (String × String))
    (hdata : getAttr attrs "data-src" = some "real.jpg")
    (hloading : getAttr attrs "loading" = none ∨
      getAttr attrs "loading" = some "lazy") :
    getAttr (resolveImgAttrs attrs) "src" = some "real.jpg" ∧
    getAttr (resolveImgAttrs attrs) "loading" = none := by
  have htruthy : truthyAttr attrs "data-src" = some "real.jpg" := by
    simp [truthyAttr, hdata]
  have ha1src : getAttr (imgLazySrcStep attrs) "src" = some "real.jpg" := by
    simp [imgLazySrcStep, htruthy, jsOrElse, optSetAttr, getAttr_setAttr_self]
  have ha1data : getAttr (imgLazySrcStep attrs) "data-src" = some "real.jpg" := by
    simp only [imgLazySrcStep, htruthy, jsOrElse, optSetAttr]
    rw [getAttr_setAttr_ne _ _ _ _ (by decide)]
    exact hdata
  have ha1loading : getAttr (imgLazySrcStep attrs) "loading" = getAttr attrs "loading" := by
    simp only [imgLazySrcStep, htruthy, jsOrElse, optSetAttr]
    exact getAttr_setAttr_ne _ _ _ _ (by decide)
  have ha3src :
      getAttr (imgSizesStep (imgSrcsetStep (imgLazySrcStep attrs))) "src" =
        some "real.jpg" := by
    rw [imgSizesStep, getAttr_optSetAttr_ne _ _ _ _ (by decide),
      imgSrcsetStep, getAttr_optSetAttr_ne _ _ _ _ (by decide)]
    exact ha1src
  have ha3data :
      getAttr (imgSizesStep (imgSrcsetStep (imgLazySrcStep attrs))) "data-src" =
        some "real.jpg" := by
    rw [imgSizesStep, getAttr_optSetAttr_ne _ _ _ _ (by decide),
      imgSrcsetStep, getAttr_optSetAttr_ne _ _ _ _ (by decide)]
    exact ha1data
  have ha3loading :
      getAttr (imgSizesStep (imgSrcsetStep (imgLazySrcStep attrs))) "loading" =
        getAttr attrs "loading" := by
    rw [imgSizesStep, getAttr_optSetAttr_ne _ _ _ _ (by decide),
      imgSrcsetStep, getAttr_optSetAttr_ne _ _ _ _ (by decide)]
    exact ha1loading
  have ha4src :
      getAttr (imgPlaceholderStep (imgSizesStep (imgSrcsetStep (imgLazySrcStep attrs))))
        "src" = some "real.jpg" := by
    unfold imgPlaceholderStep
    split
    · rw [ha3data, getAttr_setAttr_self]
      rfl
    · exact ha3src
  have ha4loading :
      getAttr (imgPlaceholderStep (imgSizesStep (imgSrcsetStep (imgLazySrcStep attrs))))
        "loading" = getAttr attrs "loading" := by
    unfold imgPlaceholderStep
    split
    · rw [getAttr_setAttr_ne _ _ _ _ (by decide)]
      exact ha3loading
    · exact ha3loading
  have ha5src :
      getAttr (imgLoadingStep (imgPlaceholderStep (imgSizesStep (imgSrcsetStep
        (imgLazySrcStep attrs))))) "src" = some "real.jpg" := by
    unfold imgLoadingStep
    split
    · rw [getAttr_removeAttr_ne _ _ _ (by decide)]
      exact ha4src
    · exact ha4src
  have ha5loading :
      getAttr (imgLoadingStep (imgPlaceholderStep (imgSizesStep (imgSrcsetStep
        (imgLazySrcStep attrs))))) "loading" = none := by
    unfold imgLoadingStep
    split
    · exact getAttr_removeAttr_self _ _
    · rename_i hcond
      rw [ha4loading] at hcond ⊢
      rcases hloading with h | h
      · exact h
      · exact absurd h hcond
  refine ⟨?_, ?_⟩
  · rw [resolveImgAttrs, imgClassStep, getAttr_setAttr_ne _ _ _ _ (by decide)]
    exact ha5src
  · rw [resolveImgAttrs, imgClassStep, getAttr_setAttr_ne _ _ _ _ (by decide)]
    exact ha5loading

theorem getElemAt_nil (e : DElem) : getElemAt e [] = some e := by
  cases e
  rfl

theorem imgPassList_get (cs : List DElem) (i : Nat) :
    (imgPassList cs)[i]? = (cs[i]?).map imgPassNode := by
  induction cs generalizing i with
  | nil => simp [imgPassList]
  | cons c cs ih =>
      cases i with
      | zero => simp [imgPassList]
      | succ n => simpa [imgPassList] using ih n

theorem getElemAt_imgPassNode (p : List Nat) : ∀ (e : DElem),
    getElemAt (imgPassNode e) p = (getElemAt e p).map imgPassNode := by
  induction p with
  | nil =>
      intro e
      simp [getElemAt_nil]
  | cons i rest ih =>
      intro e
      cases e with
      | node tag attrs text cs =>
          cases hc : cs[i]? with
          | none => simp [imgPassNode, getElemAt, imgPassList_get, hc]
          | some c => simp [imgPassNode, getElemAt, imgPassList_get, hc, ih]

theorem getElemAt_imgPass (root : DElem) (i : Nat) (p : List Nat) :
    getElemAt (imgPass root) (i :: p) = (getElemAt root (i :: p)).map imgPassNode := by
  cases root with
  | node tag attrs text cs =>
      cases hc : cs[i]? with
      | none => simp [imgPass, getElemAt, imgPassList_get, hc]
      | some c => simp [imgPass, getElemAt, imgPassList_get, hc, getElemAt_imgPassNode]

theorem sourcePassList_get (anc : Bool) (cs : List DElem) (i : Nat) :
    (sourcePassList anc cs)[i]? = (cs[i]?).map (sourcePassNode anc) := by
  induction cs generalizing i with
  | nil => simp [sourcePassList]
  | cons c cs ih =>
      cases i with
      | zero => simp [sourcePassList]
      | succ n => simpa [sourcePassList] using ih n

theorem getElemAt_sourcePassNode (p : List Nat) : ∀ (anc : Bool) (e : DElem),
    ∃ b, getElemAt (sourcePassNode anc e) p =
      (getElemAt e p).map (sourcePassNode b) := by
  induction p with
  | nil =>
      intro anc e
      exact ⟨anc, by simp [getElemAt_nil]⟩
  | cons i rest ih =>
      intro anc e
      cases e with
      | node tag attrs text cs =>
          cases hc : cs[i]? with
          | none =>
              exact ⟨anc, by
                simp [sourcePassNode, getElemAt, sourcePassList_get, hc]⟩
          | some c =>
              obtain ⟨b, hb⟩ := ih (anc || tag == "picture") c
              exact ⟨b, by
                simp [sourcePassNode, getElemAt, sourcePassList_get, hc, hb]⟩

theorem getElemAt_sourcePass (root : DElem) (i : Nat) (p : List Nat) :
    ∃ b, getElemAt (sourcePass root) (i :: p) =
      (getElemAt root (i :: p)).map (sourcePassNode b) := by
  cases root with
  | node tag attrs text cs =>
      cases hc : cs[i]? with
      | none =>
          exact ⟨false, by simp [sourcePass, getElemAt, sourcePassList_get, hc]⟩
      | some c =>
          obtain ⟨b, hb⟩ := getElemAt_sourcePassNode p (tag == "picture") c
          exact ⟨b, by simp [sourcePass, getElemAt, sourcePassList_get, hc, hb]⟩

theorem imgPassNode_tag (e : DElem) : (imgPassNode e).tag = e.tag := by
  cases e
  rfl

theorem imgPassNode_attrs_img (e : DElem) (h : e.tag = "img") :
    (imgPassNode e).attrs = resolveImgAttrs e.attrs := by
  cases e with
  | node tag attrs text cs =>
      simp only [DElem.tag] at h
      simp [imgPassNode, DElem.attrs, h]

theorem sourcePassNode_tag (anc : Bool) (e : DElem) :
    (sourcePassNode anc e).tag = e.tag := by
  cases e
  rfl

theorem sourcePassNode_attrs_of_ne (anc : Bool) (e : DElem)
    (h : e.tag ≠ "source") : (sourcePassNode anc e).attrs = e.attrs := by
  cases e with
  | node tag attrs text cs =>
      simp only [DElem.tag] at h
      simp [sourcePassNode, DElem.attrs, h]

mutual
theorem noNoscript_imgPassNode : ∀ (e : DElem),
    noNoscript (imgPassNode e) = noNoscript e
  | .node tag attrs text cs => by
      simp [imgPassNode, noNoscript, noNoscriptList_imgPassList cs]

theorem noNoscriptList_imgPassList : ∀ (cs : List DElem),
    noNoscriptList (imgPassList cs) = noNoscriptList cs
  | [] => rfl
  | c :: cs => by
      simp [imgPassList, noNoscriptList, noNoscript_imgPassNode c,
        noNoscriptList_imgPassList cs]
end

mutual
theorem noNoscript_sourcePassNode : ∀ (anc : Bool) (e : DElem),
    noNoscript (sourcePassNode anc e) = noNoscript e
  | anc, .node tag attrs text cs => by
      simp [sourcePassNode, noNoscript,
        noNoscriptList_sourcePassList (anc || tag == "picture") cs]

theorem noNoscriptList_sourcePassList : ∀ (anc : Bool) (cs : List DElem),
    noNoscriptList (sourcePassList anc cs) = noNoscriptList cs
  | _, [] => rfl
  | anc, c :: cs => by
      simp [sourcePassList, noNoscriptList, noNoscript_sourcePassNode anc c,
        noNoscriptList_sourcePassList anc cs]
end

theorem noNoscript_imgPass (root : DElem) :
    noNoscript (imgPass root) = noNoscript root := by
  cases root with
  | node tag attrs text cs =>
      simp [imgPass, noNoscript, noNoscriptList_imgPassList cs]

theorem noNoscript_sourcePass (root : DElem) :
    noNoscript (sourcePass root) = noNoscript root := by
  cases root with
  | node tag attrs text cs =>
      simp [sourcePass, noNoscript, noNoscriptList_sourcePassList _ cs]

theorem noscriptFixSiblings_id : ∀ (cs : List DElem),
    noNoscriptList cs = true → noscriptFixSiblings cs = cs
  | [], _ => rfl
  | [a], _ => rfl
  | a :: b :: rest, h => by
      have hb : ¬(b.tag = "noscript") := by
        simp only [noNoscriptList, noNoscript, Bool.and_eq_true,
          Bool.not_eq_true'] at h
        obtain ⟨_, hbn, _⟩ := h
        cases b with
        | node btag battrs btext bcs =>
            simp only [DElem.tag]
            simp only [noNoscript, Bool.and_eq_true, Bool.not_eq_true',
              beq_eq_false_iff_ne, ne_eq] at hbn
            exact hbn.1
      have hrest : noNoscriptList (b :: rest) = true := by
        simp only [noNoscriptList, Bool.and_eq_true] at h ⊢
        exact h.2
      simp [noscriptFixSiblings, hb, noscriptFixSiblings_id (b :: rest) hrest]

mutual
theorem noscriptPassNode_id : ∀ (e : DElem),
    noNoscript e = true → noscriptPassNode e = e
  | .node tag attrs text cs, h => by
      have hcs : noNoscriptList cs = true := by
        simp only [noNoscript, Bool.and_eq_true] at h
        exact h.2
      rw [noscriptPassNode, noscriptPassList_id cs hcs, noscriptFixSiblings_id cs hcs]

theorem noscriptPassList_id : ∀ (cs : List DElem),
    noNoscriptList cs = true → noscriptPassList cs = cs
  | [], _ => rfl
  | c :: cs, h => by
      have h1 : noNoscript c = true := by
        simp only [noNoscriptList, Bool.and_eq_true] at h
        exact h.1
      have h2 : noNoscriptList cs = true := by
        simp only [noNoscriptList, Bool.and_eq_true] at h
        exact h.2
      rw [noscriptPassList, noscriptPassNode_id c h1, noscriptPassList_id cs h2]
end

/-- C10 (amended): in a clone tree containing NO noscript fallback elements,
every image strictly inside the tree with `data-src="real.jpg"`, a
placeholder data-URI `src`, and a `loading` attribute that is absent or
`"lazy"`, ends up after resolution with `src = "real.jpg"` and no `loading`
attribute. (The resolver is a function of the clone tree alone — the source
tree is not an input, so it is never mutated.) A noscript sibling can
overwrite the src, and a non-lazy `loading` value survives — see the
counterexample. -/
theorem resolveLazyImages_realjpg (root : DElem) (i : Nat) (p : List Nat)
    (e : DElem)
    (hget : getElemAt root (i :: p) = some e)
    (himg : e.tag = "img")
    (hnos : noNoscript root = true)
    (hdata : getAttr e.attrs "data-src" = some "real.jpg")
    (hsrc : ∃ s, getAttr e.attrs "src" = some s ∧
      jsStartsWith s "data:image/gif;" = true)
    (hloading : getAttr e.attrs "loading" = none ∨
      getAttr e.attrs "loading" = some "lazy") :
    ∃ e2, getElemAt (resolveLazyImages root) (i :: p) = some e2 ∧
      getAttr e2.attrs "src" = some "real.jpg" ∧
      getAttr e2.attrs "loading" = none := by
  obtain ⟨b, hb⟩ := getElemAt_sourcePass (imgPass root) i p
  have h1 : getElemAt (imgPass root) (i :: p) = some (imgPassNode e) := by
    rw [getElemAt_imgPass, hget]
    rfl
  rw [h1] at hb
  have hns : noNoscript (sourcePass (imgPass root)) = true := by
    rw [noNoscript_sourcePass, noNoscript_imgPass]
    exact hnos
  have hres : resolveLazyImages root = sourcePass (imgPass root) := by
    rw [resolveLazyImages, noscriptPassNode_id _ hns]
  have htag1 : (imgPassNode e).tag = "img" := by
    rw [imgPassNode_tag]
    exact himg
  have hattrs : (sourcePassNode b (imgPassNode e)).attrs = resolveImgAttrs e.attrs := by
    rw [sourcePassNode_attrs_of_ne _ _ (by rw [htag1]; decide),
      imgPassNode_attrs_img _ himg]
  obtain ⟨hsrc2, hload2⟩ := resolveImgAttrs_spec e.attrs hdata hloading
  refine ⟨sourcePassNode b (imgPassNode e), ?_, ?_, ?_⟩
  · rw [hres]
    exact hb
  · rw [hattrs]
    exact hsrc2
  · rw [hattrs]
    exact hload2

/-- Witness for C10 (amended): a concrete clone `div > img` with
`data-src="real.jpg"`, a gif placeholder src, `loading="lazy"` and a lazyload
class; after resolution the image carries `src="real.jpg"` and no loading
attribute. -/
theorem resolveLazyImages_realjpg_witness :
    getElemAt
        (.node "div" [] ""
          [.node "img"
            [("data-src", "real.jpg"), ("src", "data:image/gif;base64,R0"),
             ("loading", "lazy"), ("class", "lazyload hero")] "" []]) [0] =
      some (.node "img"
        [("data-src", "real.jpg"), ("src", "data:image/gif;base64,R0"),
         ("loading", "lazy"), ("class", "lazyload hero")] "" []) ∧
    noNoscript
      (.node "div" [] ""
        [.node "img"
          [("data-src", "real.jpg"), ("src", "data:image/gif;base64,R0"),
           ("loading", "lazy"), ("class", "lazyload hero")] "" []]) = true ∧
    (∃ e2,
      getElemAt
        (resolveLazyImages
          (.node "div" [] ""
            [.node "img"
              [("data-src", "real.jpg"), ("src", "data:image/gif;base64,R0"),
               ("loading", "lazy"), ("class", "lazyload hero")] "" []])) [0] =
        some e2 ∧
      getAttr e2.attrs "src" = some "real.jpg" ∧
      getAttr e2.attrs "loading" = none) := by
  refine ⟨rfl, rfl, ?_⟩
  exact resolveLazyImages_realjpg _ 0 [] _ rfl rfl rfl rfl
    ⟨"data:image/gif;base64,R0", rfl, rfl⟩ (Or.inr rfl)

/-- Counterexample to C10 as stated: an image with `data-src="real.jpg"` and
a gif placeholder src, but `loading="eager"` and an adjacent noscript
fallback; after resolution its src is `"other.jpg"` (donated by the noscript
recovery path), not `"real.jpg"`, and the `loading` attribute survives. -/
theorem resolveLazyImages_counterexample :
    ((getElemAt
        (resolveLazyImages
          (.node "div" [] ""
            [.node "img"
              [("data-src", "real.jpg"), ("src", "data:image/gif;base64,R0"),
               ("loading", "eager")] "" [],
             .node "noscript" [] "<img src=\"other.jpg\">" []])) [0]).map
        DElem.attrs) =
      some [("data-src", "real.jpg"), ("src", "other.jpg"),
            ("loading", "eager"), ("class", "")] ∧
    ("other.jpg" : String) ≠ "real.jpg" := by
  constructor
  · rfl
  · decide
